import Mathlib

/-!
Shallow embedding of the synchronization & reconciliation engine of
`src/app.py` (a Flask app that mirrors a group's board-game plays from a
remote play-tracking service into a local SQLite store).

The embedded core consists of `fetch_plays_for_user` (paginated fetch with
mode-dependent cutoffs), `update_plays` (the reconciler: per-record
insert/update/delete rules plus a post-pass deletion detection),
`fetch_game_info` (metadata resolution, modelled as an oracle
`resolve : Nat → GameInfo`), `admin_full_scan` and `cron_update`
(the two entry points).

Modelling conventions:
* the SQLite tables `plays`, `games`, `bgg_users` become lists of rows;
  `SELECT 1 FROM plays WHERE id=?` becomes `List.any`, `DELETE` becomes
  `List.filter`, `UPDATE ... WHERE` becomes `List.map` guarded by the
  `WHERE` condition, `INSERT` appends;
* the remote HTTP boundary becomes a list of definitive page responses
  (`PageResp`); the 202 retry loop of the source retries the same request
  until a definitive response arrives, so only the definitive response is
  modelled; running past the end of the list models the remote returning
  an empty page (end of history), which the source treats as termination;
* `datetime.today()` is a clock read: the derived strings
  (`(today - timedelta(days=RESCAN_DAYS)).isoformat()` and
  `today.isoformat(timespec="seconds")`) are fields of `Config`;
* Python string `<`/`>=` and SQLite TEXT ordering are byte/code-point
  lexicographic on the ASCII strings in play; both are modelled by `lexLt`;
* every state mutation is additionally logged in an `Ops` record so that
  theorems can speak about which operations a pass performed.
-/

namespace HBGS

/-- Lexicographic order on char lists: models Python's `<` on `str` and
SQLite's default ordering of TEXT values (both compare code points /
bytes, which coincide on the ASCII date strings used by the app). -/
def lexLt : List Char → List Char → Bool
  | [], [] => false
  | [], _ :: _ => true
  | _ :: _, [] => false
  | a :: as, b :: bs => if a < b then true else if b < a then false else lexLt as bs

/-- Python `a < b` on strings. -/
def strLt (a b : String) : Bool := lexLt a.data b.data

/-- SQLite `a >= b` on TEXT, as in the `play_date >= ?` range scan. -/
def strGe (a b : String) : Bool := !(strLt a b)

/-- Python `str.upper()` (the strings involved are ASCII). -/
def upStr (s : String) : String := ⟨s.data.map Char.toUpper⟩

/-- Environment configuration and clock reads (`GAME_LOCATION`,
`START_DATE = f"{START_YEAR}-01-01"`, and the two strings the source
derives from `datetime.today()`: the incremental cutoff
`(today - timedelta(days=RESCAN_DAYS)).isoformat()` and the watermark
stamp `today.isoformat(timespec="seconds")`). -/
structure Config where
  GAME_LOCATION : String
  START_DATE : String
  incCutoff : String
  todayStamp : String
deriving Repr, DecidableEq

/-- A row of the `plays` table. -/
structure PlayRow where
  id : Nat
  game_id : Nat
  play_date : String
  user_id : Nat
deriving Repr, DecidableEq

/-- A row of the `games` table. -/
structure GameRow where
  id : Nat
  name : Option String
  image_url : Option String
deriving Repr, DecidableEq

/-- A row of the `bgg_users` table. -/
structure UserRow where
  id : Nat
  username : String
  is_active : Bool
  last_full_scan : Option String
deriving Repr, DecidableEq

/-- The persistent store. -/
structure DB where
  plays : List PlayRow
  games : List GameRow
  users : List UserRow
deriving Repr, DecidableEq

/-- Result of `fetch_game_info` (name/image may be null on failure). -/
structure GameInfo where
  name : Option String
  image_url : Option String
deriving Repr, DecidableEq

/-- A parsed play record as built by `fetch_plays_for_user` (the dict with
keys id, game_id, play_date, user_id, location). -/
structure PlayRec where
  id : Nat
  game_id : Nat
  play_date : String
  user_id : Nat
  location : String
deriving Repr, DecidableEq

/-- Instrumentation: the operations one pass performed. `playUpdated`
records ids for which the guarded `UPDATE` actually changed a row;
`playInsertedGameIds` records the game id referenced by each inserted
play; `gameFetched` records each call to `fetch_game_info`. -/
structure Ops where
  playInserted : List Nat
  playDeleted : List Nat
  playUpdated : List Nat
  playInsertedGameIds : List Nat
  gameFetched : List Nat
  gameInserted : List Nat
deriving Repr, DecidableEq

def Ops.nil : Ops := ⟨[], [], [], [], [], []⟩

def Ops.append (a b : Ops) : Ops :=
  ⟨a.playInserted ++ b.playInserted, a.playDeleted ++ b.playDeleted,
   a.playUpdated ++ b.playUpdated, a.playInsertedGameIds ++ b.playInsertedGameIds,
   a.gameFetched ++ b.gameFetched, a.gameInserted ++ b.gameInserted⟩

/-- `SELECT 1 FROM plays WHERE id=?` (src/app.py:308). -/
def existsPlay (db : DB) (i : Nat) : Bool := db.plays.any (fun r => r.id == i)

/-- `SELECT id FROM games WHERE id=?` (src/app.py:327). -/
def existsGame (db : DB) (g : Nat) : Bool := db.games.any (fun r => r.id == g)

/-- The guard of the conditional `UPDATE` (src/app.py:341-352): the row
matches the `WHERE` clause iff it has the record's id and at least one of
game_id / play_date / user_id differs. -/
def updHit (p : PlayRec) (r : PlayRow) : Bool :=
  r.id == p.id &&
    (!(r.game_id == p.game_id) || !(r.play_date == p.play_date) || !(r.user_id == p.user_id))

/-- One iteration of the `for p in plays` loop of `update_plays`
(src/app.py:306-352): delete if stored and location moved away; insert if
unstored and at the target location (backfilling the game row via
`fetch_game_info` when absent); otherwise the guarded no-op-avoiding
`UPDATE`. -/
def updateOne (cfg : Config) (resolve : Nat → GameInfo) (db : DB) (p : PlayRec) :
    DB × Ops :=
  let exs := existsPlay db p.id
  if exs && !(p.location == cfg.GAME_LOCATION) then
    ({ db with plays := db.plays.filter (fun r => !(r.id == p.id)) },
     { Ops.nil with playDeleted := [p.id] })
  else if !exs && (p.location == cfg.GAME_LOCATION) then
    let db1 := { db with plays := db.plays ++ [⟨p.id, p.game_id, p.play_date, p.user_id⟩] }
    if existsGame db p.game_id then
      (db1, { Ops.nil with playInserted := [p.id], playInsertedGameIds := [p.game_id] })
    else
      let info := resolve p.game_id
      ({ db1 with games := db1.games ++ [⟨p.game_id, info.name, info.image_url⟩] },
       ⟨[p.id], [], [], [p.game_id], [p.game_id], [p.game_id]⟩)
  else
    ({ db with plays := db.plays.map (fun r =>
        if updHit p r then
          { r with game_id := p.game_id, play_date := p.play_date, user_id := p.user_id }
        else r) },
     { Ops.nil with playUpdated := if db.plays.any (updHit p) then [p.id] else [] })

/-- The post-pass deletion detection of `update_plays` (src/app.py:354-377):
guarded by `if plays:`, it takes the user id from the first record, the
mode's cutoff, and deletes every stored id of that user inside the window
that was not observed in the batch. -/
def deletePass (cfg : Config) (full_scan : Bool) (plays : List PlayRec) (db : DB) :
    DB × Ops :=
  match plays with
  | [] => (db, Ops.nil)
  | p0 :: _ =>
    let user_id := p0.user_id
    let bggIds := plays.map (fun p => p.id)
    let cutoff := if full_scan then cfg.START_DATE else cfg.incCutoff
    let dbIds := (db.plays.filter
        (fun r => r.user_id == user_id && strGe r.play_date cutoff)).map (fun r => r.id)
    let deletedIds := dbIds.filter (fun i => !(bggIds.contains i))
    let newPlays := deletedIds.foldl (fun pls i => pls.filter (fun r => !(r.id == i))) db.plays
    ({ db with plays := newPlays }, { Ops.nil with playDeleted := deletedIds })

/-- The accumulator step of the `for p in plays` loop: thread the store
and collect the operation log. -/
def recStep (cfg : Config) (resolve : Nat → GameInfo) (acc : DB × Ops) (p : PlayRec) :
    DB × Ops :=
  let r := updateOne cfg resolve acc.1 p
  (r.1, Ops.append acc.2 r.2)

/-- `update_plays(plays, full_scan)` (src/app.py:302-379): the per-record
loop followed by the deletion-detection post-pass. -/
def update_plays (cfg : Config) (resolve : Nat → GameInfo) (plays : List PlayRec)
    (full_scan : Bool) (db : DB) : DB × Ops :=
  let a1 := plays.foldl (recStep cfg resolve) (db, Ops.nil)
  let a2 := deletePass cfg full_scan plays a1.1
  (a2.1, Ops.append a1.2 a2.2)

/-- Proof-internal: bookkeeping invariant for one game id `g` during a
pass that starts with no `games` row for `g`: the number of stored `g`
rows equals the number of metadata fetches for `g`, which equals the
number of game inserts for `g`, is at most one, and is positive as soon
as some inserted play referenced `g`. -/
def gInv (g : Nat) (db : DB) (o : Ops) : Prop :=
  (db.games.filter (fun r => r.id == g)).length = o.gameFetched.count g
  ∧ o.gameInserted.count g = o.gameFetched.count g
  ∧ o.gameFetched.count g ≤ 1
  ∧ (g ∈ o.playInsertedGameIds → 0 < o.gameFetched.count g)

/-- Proof-internal: the store already agrees with record `p`'s per-record
rule — `p`'s id is stored with `p`'s fields when `p` is at the target
location, and not stored at all otherwise. -/
def settled (cfg : Config) (p : PlayRec) (db : DB) : Prop :=
  if p.location = cfg.GAME_LOCATION then
    (∃ r ∈ db.plays, r.id = p.id) ∧
      ∀ r ∈ db.plays, r.id = p.id →
        r.game_id = p.game_id ∧ r.play_date = p.play_date ∧ r.user_id = p.user_id
  else
    ∀ r ∈ db.plays, r.id ≠ p.id

/-- A `<play .../>` element of a fetched page, with the attributes the
source reads; `location` and `item` are `Option` because
`attrib.get`/`find` return `None` when absent. -/
structure PlayElem where
  id : Nat
  date : String
  location : Option String
  item : Option Nat
deriving Repr, DecidableEq

/-- The definitive response to one page request: the parsed `<play>`
elements of a 200 response, or a non-success status (`bad`). The 202
retry loop repeats the same request until a definitive response arrives,
so 202s are not modelled. -/
inductive PageResp where
  | ok (elems : List PlayElem)
  | bad
deriving Repr, DecidableEq

/-- `p.attrib.get("location")` returning `None` makes
`location.upper()` raise `AttributeError`; this is the only exception the
fetch loop can raise on well-formed ids/dates. -/
inductive FetchErr where
  | missingLocation (play_id : Nat)
deriving Repr, DecidableEq

/-- Outcome of the inner `for p in play_elems` loop: an exception, an
early `return new_plays` (record older than the mode cutoff), or falling
through to the next page. -/
inductive InnerRes where
  | err (e : FetchErr)
  | halt (acc : List PlayRec)
  | next (acc : List PlayRec)
deriving Repr, DecidableEq

/-- The inner record loop of `fetch_plays_for_user` (src/app.py:271-297):
stop at the mode cutoff, uppercase the location (raising when absent),
skip records without an `<item>`, and accumulate the rest. -/
def scanPage (cutoff_date : String) (user_id : Nat) :
    List PlayElem → List PlayRec → InnerRes
  | [], acc => .next acc
  | p :: rest, acc =>
    if strLt p.date cutoff_date then .halt acc
    else
      match p.location with
      | none => .err (.missingLocation p.id)
      | some loc =>
        match p.item with
        | none => scanPage cutoff_date user_id rest acc
        | some objectid =>
          scanPage cutoff_date user_id rest
            (acc ++ [⟨p.id, objectid, p.date, user_id, upStr loc⟩])

/-- The page loop of `fetch_plays_for_user` (src/app.py:244-299): a bad
status or an empty page breaks (returning the accumulated plays); a page
whose newest record predates `START_DATE` returns immediately; otherwise
the inner loop runs and pagination continues. -/
def fetchPages (cfg : Config) (user_id : Nat) (cutoff_date : String) :
    List PageResp → List PlayRec → Except FetchErr (List PlayRec)
  | [], acc => .ok acc
  | .bad :: _, acc => .ok acc
  | .ok [] :: _, acc => .ok acc
  | .ok (e :: es) :: rest, acc =>
    if strLt e.date cfg.START_DATE then .ok acc
    else
      match scanPage cutoff_date user_id (e :: es) acc with
      | .err er => .error er
      | .halt acc2 => .ok acc2
      | .next acc2 => fetchPages cfg user_id cutoff_date rest acc2

/-- `fetch_plays_for_user(username, user_id, full_scan)`
(src/app.py:230-299); the remote's successive page responses are the
`pages` argument. -/
def fetch_plays_for_user (cfg : Config) (user_id : Nat) (full_scan : Bool)
    (pages : List PageResp) : Except FetchErr (List PlayRec) :=
  let cutoff_date := if full_scan then cfg.START_DATE else cfg.incCutoff
  fetchPages cfg user_id cutoff_date pages []

/-- Proof-internal: the page loop, started on `pages` with accumulator
`acc`, falls through every page of `pages` — each is a 200 response with
records, its newest record is not older than the epoch start, and the
inner loop neither halts at the cutoff nor raises — reaching the pages
after `pages` with accumulator `acc2`. -/
inductive FallsThrough (cfg : Config) (user_id : Nat) (cutoff_date : String) :
    List PageResp → List PlayRec → List PlayRec → Prop
  | nil (acc : List PlayRec) : FallsThrough cfg user_id cutoff_date [] acc acc
  | cons (e : PlayElem) (es : List PlayElem) (pages : List PageResp)
      (acc acc2 acc3 : List PlayRec)
      (hnewest : strLt e.date cfg.START_DATE = false)
      (hscan : scanPage cutoff_date user_id (e :: es) acc = .next acc2)
      (htail : FallsThrough cfg user_id cutoff_date pages acc2 acc3) :
      FallsThrough cfg user_id cutoff_date (.ok (e :: es) :: pages) acc acc3

/-- `UPDATE bgg_users SET last_full_scan=? WHERE id=?` with today's
stamp (src/app.py:184-187 and 445-448). -/
def stampUser (cfg : Config) (users : List UserRow) (uid : Nat) : List UserRow :=
  users.map (fun v => if v.id == uid then { v with last_full_scan := some cfg.todayStamp } else v)

/-- The scan-mode decision of the scheduled sweep (src/app.py:439):
`full_scan = True if (row["last_full_scan"] is None) else False`. -/
def scanModeFull (u : UserRow) : Bool := u.last_full_scan.isNone

/-- `admin_full_scan(username)` (src/app.py:154-190): look up the active
user, fetch with `full_scan=True`, clear all the user's stored plays,
re-reconcile the batch, and stamp the watermark. An inactive or missing
user leaves the store untouched. -/
def admin_full_scan (cfg : Config) (resolve : Nat → GameInfo)
    (remote : String → List PageResp) (db : DB) (username : String) :
    Except FetchErr DB :=
  match db.users.find? (fun u => u.username == username && u.is_active) with
  | none => .ok db
  | some u =>
    match fetch_plays_for_user cfg u.id true (remote username) with
    | .error e => .error e
    | .ok plays =>
      let db1 := { db with plays := db.plays.filter (fun r => !(r.user_id == u.id)) }
      let db2 := (update_plays cfg resolve plays true db1).1
      .ok { db2 with users := stampUser cfg db2.users u.id }

/-- The per-user body of `cron_update`'s loop (src/app.py:436-449): pick
the mode from the watermark, fetch, reconcile, and stamp the watermark
when it was unset — unconditionally on the fetch's completeness. -/
def cronUser (cfg : Config) (resolve : Nat → GameInfo)
    (remote : String → List PageResp) (db : DB) (u : UserRow) :
    Except FetchErr DB :=
  let full_scan := scanModeFull u
  match fetch_plays_for_user cfg u.id full_scan (remote u.username) with
  | .error e => .error e
  | .ok plays =>
    let db1 := (update_plays cfg resolve plays full_scan db).1
    if u.last_full_scan.isNone then
      .ok { db1 with users := stampUser cfg db1.users u.id }
    else .ok db1

/-- The sweep loop over the user snapshot taken at the start of
`cron_update` (src/app.py:430-449). -/
def cronLoop (cfg : Config) (resolve : Nat → GameInfo)
    (remote : String → List PageResp) : List UserRow → DB → Except FetchErr DB
  | [], db => .ok db
  | u :: rest, db =>
    match cronUser cfg resolve remote db u with
    | .error e => .error e
    | .ok db1 => cronLoop cfg resolve remote rest db1

/-- `cron_update()` (src/app.py:426-451): snapshot the active users, then
sweep. -/
def cron_update (cfg : Config) (resolve : Nat → GameInfo)
    (remote : String → List PageResp) (db : DB) : Except FetchErr DB :=
  cronLoop cfg resolve remote (db.users.filter (fun u => u.is_active)) db

/-! ### Concrete data shared by witnesses and counterexamples -/

/-- A concrete configuration: target location `LOC`, epoch start
`2020-01-01`, a 14-day incremental window as of 2026-10-12. -/
def cfg0 : Config := ⟨"LOC", "2020-01-01", "2026-09-28T00:00:00", "2026-10-12T17:00:00"⟩

/-- A concrete metadata oracle. -/
def resolve0 : Nat → GameInfo := fun _ => ⟨some "Gname", some "img"⟩

/-! ### Helper lemmas -/

theorem list_map_eq_self {α : Type} (f : α → α) (l : List α) (h : ∀ a ∈ l, f a = a) :
    l.map f = l := by
  induction l with
  | nil => rfl
  | cons x xs ih =>
    simp only [List.map_cons, h x (by simp), List.cons.injEq, true_and]
    exact ih (fun a ha => h a (by simp [ha]))

theorem mem_foldl_del (ids : List Nat) (pls : List PlayRow) (r : PlayRow) :
    r ∈ ids.foldl (fun pls2 i => pls2.filter (fun s => !(s.id == i))) pls
      ↔ r ∈ pls ∧ r.id ∉ ids := by
  induction ids generalizing pls with
  | nil => simp
  | cons i is ih =>
    simp only [List.foldl_cons, ih, List.mem_filter, List.mem_cons, Bool.not_eq_eq_eq_not,
      Bool.not_true, beq_eq_false_iff_ne, ne_eq, decide_eq_true_eq]
    constructor
    · rintro ⟨⟨h1, h2⟩, h3⟩
      exact ⟨h1, by rintro (h | h) <;> simp_all⟩
    · rintro ⟨h1, h2⟩
      push_neg at h2
      exact ⟨⟨h1, by simpa using h2.1⟩, h2.2⟩

/-- Branch equation: stored and moved away deletes the row
(src/app.py:314-319). -/
theorem updateOne_delete_eq (cfg : Config) (resolve : Nat → GameInfo) (db : DB) (p : PlayRec)
    (h1 : existsPlay db p.id = true) (h2 : (p.location == cfg.GAME_LOCATION) = false) :
    updateOne cfg resolve db p =
      ({ db with plays := db.plays.filter (fun r => !(r.id == p.id)) },
       { Ops.nil with playDeleted := [p.id] }) := by
  simp [updateOne, h1, h2]

/-- Branch equation: unstored at the target location with the game already
known inserts the play only (src/app.py:320-331). -/
theorem updateOne_insert_old_eq (cfg : Config) (resolve : Nat → GameInfo) (db : DB) (p : PlayRec)
    (h1 : existsPlay db p.id = false) (h2 : (p.location == cfg.GAME_LOCATION) = true)
    (h3 : existsGame db p.game_id = true) :
    updateOne cfg resolve db p =
      ({ db with plays := db.plays ++ [⟨p.id, p.game_id, p.play_date, p.user_id⟩] },
       ⟨[p.id], [], [], [p.game_id], [], []⟩) := by
  simp [updateOne, h1, h2, h3, Ops.nil]

/-- Branch equation: unstored at the target location with an unknown game
inserts the play, resolves the metadata and inserts the game row
(src/app.py:320-338). -/
theorem updateOne_insert_new_eq (cfg : Config) (resolve : Nat → GameInfo) (db : DB) (p : PlayRec)
    (h1 : existsPlay db p.id = false) (h2 : (p.location == cfg.GAME_LOCATION) = true)
    (h3 : existsGame db p.game_id = false) :
    updateOne cfg resolve db p =
      (⟨db.plays ++ [⟨p.id, p.game_id, p.play_date, p.user_id⟩],
        db.games ++ [⟨p.game_id, (resolve p.game_id).name, (resolve p.game_id).image_url⟩],
        db.users⟩,
       ⟨[p.id], [], [], [p.game_id], [p.game_id], [p.game_id]⟩) := by
  simp [updateOne, h1, h2, h3]

/-- Branch equation: the remaining cases run the guarded `UPDATE`
(src/app.py:339-352). -/
theorem updateOne_update_eq (cfg : Config) (resolve : Nat → GameInfo) (db : DB) (p : PlayRec)
    (h : existsPlay db p.id = (p.location == cfg.GAME_LOCATION)) :
    updateOne cfg resolve db p =
      ({ db with plays := db.plays.map (fun r =>
          if updHit p r then
            { r with game_id := p.game_id, play_date := p.play_date, user_id := p.user_id }
          else r) },
       { Ops.nil with playUpdated := if db.plays.any (updHit p) then [p.id] else [] }) := by
  cases hl : (p.location == cfg.GAME_LOCATION) <;> rw [hl] at h <;> simp [updateOne, h, hl]

/-- The users table is untouched by a per-record step. -/
theorem updateOne_users (cfg : Config) (resolve : Nat → GameInfo) (db : DB) (p : PlayRec) :
    (updateOne cfg resolve db p).1.users = db.users := by
  cases hx : existsPlay db p.id <;> cases hl : (p.location == cfg.GAME_LOCATION)
  · rw [updateOne_update_eq cfg resolve db p (hx.trans hl.symm)]
  · cases hg : existsGame db p.game_id
    · rw [updateOne_insert_new_eq cfg resolve db p hx hl hg]
    · rw [updateOne_insert_old_eq cfg resolve db p hx hl hg]
  · rw [updateOne_delete_eq cfg resolve db p hx hl]
  · rw [updateOne_update_eq cfg resolve db p (hx.trans hl.symm)]

/-- A row changed by the guarded `UPDATE` keeps its id. -/
theorem updHit_id (p : PlayRec) (r : PlayRow) (h : updHit p r = true) : r.id = p.id := by
  unfold updHit at h
  simp only [Bool.and_eq_true, beq_iff_eq] at h
  exact h.1

/-- Rows with a different id are unaffected by a per-record step. -/
theorem updateOne_mem_plays (cfg : Config) (resolve : Nat → GameInfo) (db : DB)
    (p : PlayRec) (r : PlayRow) (h : r.id ≠ p.id) :
    r ∈ (updateOne cfg resolve db p).1.plays ↔ r ∈ db.plays := by
  have hins : ∀ pls : List PlayRow,
      r ∈ pls ++ [(⟨p.id, p.game_id, p.play_date, p.user_id⟩ : PlayRow)] ↔ r ∈ pls := by
    intro pls
    simp only [List.mem_append, List.mem_singleton]
    constructor
    · rintro (hr | hr)
      · exact hr
      · exact absurd (congrArg PlayRow.id hr) h
    · exact fun hr => Or.inl hr
  have hupd : r ∈ db.plays.map (fun s =>
      if updHit p s then
        { s with game_id := p.game_id, play_date := p.play_date, user_id := p.user_id }
      else s) ↔ r ∈ db.plays := by
    constructor
    · intro hr
      rcases List.mem_map.mp hr with ⟨s, hs, hfs⟩
      by_cases hu : updHit p s = true
      · rw [if_pos hu] at hfs
        have hid : r.id = s.id := by rw [← hfs]
        exact absurd (hid.trans (updHit_id p s hu)) h
      · rw [if_neg hu] at hfs
        exact hfs ▸ hs
    · intro hr
      refine List.mem_map.mpr ⟨r, hr, ?_⟩
      have hu : updHit p r = false := by
        unfold updHit
        simp [h]
      rw [hu]
      simp
  cases hx : existsPlay db p.id <;> cases hl : (p.location == cfg.GAME_LOCATION)
  · rw [updateOne_update_eq cfg resolve db p (hx.trans hl.symm)]
    exact hupd
  · cases hg : existsGame db p.game_id
    · rw [updateOne_insert_new_eq cfg resolve db p hx hl hg]
      exact hins db.plays
    · rw [updateOne_insert_old_eq cfg resolve db p hx hl hg]
      exact hins db.plays
  · rw [updateOne_delete_eq cfg resolve db p hx hl]
    simp [List.mem_filter, h]
  · rw [updateOne_update_eq cfg resolve db p (hx.trans hl.symm)]
    exact hupd

theorem Ops.append_nil (o : Ops) : Ops.append o Ops.nil = o := by
  cases o
  simp [Ops.append, Ops.nil]

theorem existsPlay_eq_false_iff (db : DB) (i : Nat) :
    existsPlay db i = false ↔ ∀ r ∈ db.plays, r.id ≠ i := by
  simp [existsPlay]

theorem existsPlay_eq_true_iff (db : DB) (i : Nat) :
    existsPlay db i = true ↔ ∃ r ∈ db.plays, r.id = i := by
  simp [existsPlay]

theorem existsGame_eq_false_iff (db : DB) (g : Nat) :
    existsGame db g = false ↔ ∀ r ∈ db.games, r.id ≠ g := by
  simp [existsGame]

theorem existsGame_eq_true_iff (db : DB) (g : Nat) :
    existsGame db g = true ↔ ∃ r ∈ db.games, r.id = g := by
  simp [existsGame]

/-- A per-record step establishes `settled` for its own record. -/
theorem settled_after (cfg : Config) (resolve : Nat → GameInfo) (db : DB) (p : PlayRec) :
    settled cfg p (updateOne cfg resolve db p).1 := by
  cases hx : existsPlay db p.id <;> cases hl : (p.location == cfg.GAME_LOCATION)
  · rw [updateOne_update_eq cfg resolve db p (hx.trans hl.symm)]
    have hloc : ¬ p.location = cfg.GAME_LOCATION := by simpa using hl
    rw [settled, if_neg hloc]
    intro r hr
    rcases List.mem_map.mp hr with ⟨s, hs, hfs⟩
    have hsid : s.id ≠ p.id :=
      (existsPlay_eq_false_iff db p.id).mp hx s hs
    have hu : updHit p s = false := by
      unfold updHit
      simp [hsid]
    rw [hu] at hfs
    simp only [Bool.false_eq_true, if_false] at hfs
    rw [← hfs]
    exact hsid
  · have hloc : p.location = cfg.GAME_LOCATION := by simpa using hl
    have hx2 : ∀ r ∈ db.plays, ¬(r.id = p.id) :=
      (existsPlay_eq_false_iff db p.id).mp hx
    have key : ∀ (gms : List GameRow) (usr : List UserRow), settled cfg p
        ⟨db.plays ++ [⟨p.id, p.game_id, p.play_date, p.user_id⟩], gms, usr⟩ := by
      intro gms usr
      rw [settled, if_pos hloc]
      constructor
      · exact ⟨⟨p.id, p.game_id, p.play_date, p.user_id⟩, by simp, rfl⟩
      · intro r hr hid
        rcases List.mem_append.mp hr with hr | hr
        · exact absurd hid (hx2 r hr)
        · rcases List.mem_singleton.mp hr with rfl
          exact ⟨rfl, rfl, rfl⟩
    cases hg : existsGame db p.game_id
    · rw [updateOne_insert_new_eq cfg resolve db p hx hl hg]
      exact key _ _
    · rw [updateOne_insert_old_eq cfg resolve db p hx hl hg]
      exact key _ _
  · rw [updateOne_delete_eq cfg resolve db p hx hl]
    have hloc : ¬ p.location = cfg.GAME_LOCATION := by simpa using hl
    rw [settled, if_neg hloc]
    intro r hr
    have := (List.mem_filter.mp hr).2
    simpa using this
  · rw [updateOne_update_eq cfg resolve db p (hx.trans hl.symm)]
    have hloc : p.location = cfg.GAME_LOCATION := by simpa using hl
    rw [settled, if_pos hloc]
    constructor
    · rcases (existsPlay_eq_true_iff db p.id).mp hx with ⟨s, hs, hsid2⟩
      by_cases hu : updHit p s = true
      · refine ⟨_, List.mem_map_of_mem _ hs, ?_⟩
        rw [if_pos hu]
        exact hsid2
      · refine ⟨_, List.mem_map_of_mem _ hs, ?_⟩
        rw [if_neg hu]
        exact hsid2
    · intro r hr hid
      rcases List.mem_map.mp hr with ⟨s, hs, hfs⟩
      by_cases hu : updHit p s = true
      · rw [if_pos hu] at hfs
        rw [← hfs]
        exact ⟨rfl, rfl, rfl⟩
      · rw [if_neg hu] at hfs
        subst hfs
        have hsid : s.id = p.id := hid
        have : ¬(s.game_id ≠ p.game_id ∨ s.play_date ≠ p.play_date ∨ s.user_id ≠ p.user_id) := by
          intro hcon
          apply hu
          unfold updHit
          simp only [Bool.and_eq_true, beq_iff_eq, Bool.or_eq_true, Bool.not_eq_eq_eq_not,
            Bool.not_true, beq_eq_false_iff_ne]
          exact ⟨hsid, by tauto⟩
        push_neg at this
        exact this

theorem deletePass_subset (cfg : Config) (fs : Bool) (batch : List PlayRec) (db : DB)
    (r : PlayRow) (hr : r ∈ (deletePass cfg fs batch db).1.plays) : r ∈ db.plays := by
  cases batch with
  | nil => exact hr
  | cons p0 rest =>
    simp only [deletePass] at hr
    exact ((mem_foldl_del _ _ r).mp hr).1

/-- The deletion post-pass keeps every row whose id was observed in the
batch. -/
theorem deletePass_keep (cfg : Config) (fs : Bool) (batch : List PlayRec) (db : DB)
    (r : PlayRow) (hr : r ∈ db.plays) (hid : r.id ∈ batch.map PlayRec.id) :
    r ∈ (deletePass cfg fs batch db).1.plays := by
  cases batch with
  | nil => exact hr
  | cons p0 rest =>
    simp only [deletePass]
    rw [mem_foldl_del]
    refine ⟨hr, fun hcon => ?_⟩
    have h2 := (List.mem_filter.mp hcon).2
    simp only [Bool.not_eq_eq_eq_not, Bool.not_true] at h2
    simp only [List.map_cons] at hid
    simp [hid] at h2

/-- After the deletion post-pass, every stored row of the batch's user
inside the window has an observed id. -/
theorem deletePass_clean (cfg : Config) (fs : Bool) (p0 : PlayRec) (rest : List PlayRec)
    (db : DB) (r : PlayRow) (hr : r ∈ (deletePass cfg fs (p0 :: rest) db).1.plays)
    (huser : r.user_id = p0.user_id)
    (hwin : strGe r.play_date (if fs then cfg.START_DATE else cfg.incCutoff) = true) :
    r.id ∈ (p0 :: rest).map PlayRec.id := by
  by_contra hcon
  simp only [deletePass] at hr
  rcases (mem_foldl_del _ _ r).mp hr with ⟨hmem, hnot⟩
  apply hnot
  apply List.mem_filter.mpr
  constructor
  · exact List.mem_map.mpr ⟨r, List.mem_filter.mpr ⟨hmem, by simp [huser, hwin]⟩, rfl⟩
  · simp only [Bool.not_eq_eq_eq_not, Bool.not_true]
    simpa using hcon

/-- If every stored row of the batch's user inside the window has an
observed id, the deletion post-pass is a no-op. -/
theorem deletePass_noop (cfg : Config) (fs : Bool) (batch : List PlayRec) (db : DB)
    (h : ∀ p0 rest, batch = p0 :: rest → ∀ r ∈ db.plays, r.user_id = p0.user_id →
      strGe r.play_date (if fs then cfg.START_DATE else cfg.incCutoff) = true →
      r.id ∈ batch.map PlayRec.id) :
    deletePass cfg fs batch db = (db, Ops.nil) := by
  cases batch with
  | nil => rfl
  | cons p0 rest =>
    have hdel : ((db.plays.filter (fun s =>
        s.user_id == p0.user_id &&
          strGe s.play_date (if fs then cfg.START_DATE else cfg.incCutoff))).map
            (fun s => s.id)).filter
        (fun i => !(((p0 :: rest).map PlayRec.id).contains i)) = [] := by
      apply List.filter_eq_nil_iff.mpr
      intro i hi
      rcases List.mem_map.mp hi with ⟨s, hs, rfl⟩
      rcases List.mem_filter.mp hs with ⟨hmem, hcond⟩
      simp only [Bool.and_eq_true, beq_iff_eq] at hcond
      have hobs := h p0 rest rfl s hmem hcond.1 hcond.2
      have hobs2 : s.id = p0.id ∨ ∃ a ∈ rest, a.id = s.id := by simpa using hobs
      simpa using fun hne => hobs2.resolve_left hne
    simp only [deletePass, hdel, List.foldl_nil]
    rfl

/-- A per-record step for a different id preserves `settled`. -/
theorem settled_step (cfg : Config) (resolve : Nat → GameInfo) (db : DB) (p q : PlayRec)
    (hne : q.id ≠ p.id) (hs : settled cfg p db) :
    settled cfg p (updateOne cfg resolve db q).1 := by
  unfold settled at hs ⊢
  by_cases hloc : p.location = cfg.GAME_LOCATION
  · rw [if_pos hloc] at hs ⊢
    rcases hs with ⟨⟨r0, hr0, hid0⟩, hall⟩
    constructor
    · refine ⟨r0, ?_, hid0⟩
      exact (updateOne_mem_plays cfg resolve db q r0 (by rw [hid0]; exact fun h => hne h.symm)).mpr hr0
    · intro r hr hid
      have : r ∈ db.plays :=
        (updateOne_mem_plays cfg resolve db q r (by rw [hid]; exact fun h => hne h.symm)).mp hr
      exact hall r this hid
  · rw [if_neg hloc] at hs ⊢
    intro r hr hcon
    have : r ∈ db.plays :=
      (updateOne_mem_plays cfg resolve db q r (by rw [hcon]; exact fun h => hne h.symm)).mp hr
    exact hs r this hcon

/-- The deletion post-pass preserves `settled` for records of the batch. -/
theorem settled_deletePass (cfg : Config) (fs : Bool) (batch : List PlayRec) (db : DB)
    (p : PlayRec) (hp : p ∈ batch) (hs : settled cfg p db) :
    settled cfg p (deletePass cfg fs batch db).1 := by
  unfold settled at hs ⊢
  by_cases hloc : p.location = cfg.GAME_LOCATION
  · rw [if_pos hloc] at hs ⊢
    rcases hs with ⟨⟨r0, hr0, hid0⟩, hall⟩
    refine ⟨⟨r0, ?_, hid0⟩, ?_⟩
    · exact deletePass_keep cfg fs batch db r0 hr0
        (by rw [hid0]; exact List.mem_map_of_mem _ hp)
    · intro r hr hid
      exact hall r (deletePass_subset cfg fs batch db r hr) hid
  · rw [if_neg hloc] at hs ⊢
    intro r hr
    exact hs r (deletePass_subset cfg fs batch db r hr)

/-- A per-record step on a store already settled for its record does
nothing: no insert, no delete, no effective update. -/
theorem updateOne_noop (cfg : Config) (resolve : Nat → GameInfo) (db : DB) (p : PlayRec)
    (hs : settled cfg p db) : updateOne cfg resolve db p = (db, Ops.nil) := by
  unfold settled at hs
  by_cases hloc : p.location = cfg.GAME_LOCATION
  · rw [if_pos hloc] at hs
    rcases hs with ⟨⟨r0, hr0, hid0⟩, hall⟩
    have hx : existsPlay db p.id = true := (existsPlay_eq_true_iff db p.id).mpr ⟨r0, hr0, hid0⟩
    have hl : (p.location == cfg.GAME_LOCATION) = true := by simp [hloc]
    have hnohit : ∀ r ∈ db.plays, updHit p r = false := by
      intro r hr
      unfold updHit
      by_cases hid : r.id = p.id
      · rcases hall r hr hid with ⟨h1, h2, h3⟩
        simp [h1, h2, h3]
      · simp [hid]
    rw [updateOne_update_eq cfg resolve db p (hx.trans hl.symm)]
    rw [list_map_eq_self _ _ (fun r hr => by rw [hnohit r hr]; simp)]
    rw [List.any_eq_false.mpr (fun x hx => by simp [hnohit x hx])]
    rfl
  · rw [if_neg hloc] at hs
    have hx : existsPlay db p.id = false := (existsPlay_eq_false_iff db p.id).mpr hs
    have hl : (p.location == cfg.GAME_LOCATION) = false := by simp [hloc]
    have hnohit : ∀ r ∈ db.plays, updHit p r = false := by
      intro r hr
      unfold updHit
      simp [hs r hr]
    rw [updateOne_update_eq cfg resolve db p (hx.trans hl.symm)]
    rw [list_map_eq_self _ _ (fun r hr => by rw [hnohit r hr]; simp)]
    rw [List.any_eq_false.mpr (fun x hx => by simp [hnohit x hx])]
    rfl

/-- The store component of the per-record fold ignores the ops log. -/
theorem foldl_recStep_fst (cfg : Config) (resolve : Nat → GameInfo) (batch : List PlayRec)
    (db : DB) (o : Ops) :
    (batch.foldl (recStep cfg resolve) (db, o)).1
      = batch.foldl (fun d q => (updateOne cfg resolve d q).1) db := by
  induction batch generalizing db o with
  | nil => rfl
  | cons p ps ih =>
    simp only [List.foldl_cons, recStep]
    exact ih _ _

/-- `settled` survives the per-record steps of records with other ids. -/
theorem fold_settled_preserve (cfg : Config) (resolve : Nat → GameInfo)
    (batch : List PlayRec) (db : DB) (p : PlayRec)
    (h : ∀ q ∈ batch, q.id ≠ p.id) (hs : settled cfg p db) :
    settled cfg p (batch.foldl (fun d q => (updateOne cfg resolve d q).1) db) := by
  induction batch generalizing db with
  | nil => exact hs
  | cons q qs ih =>
    simp only [List.foldl_cons]
    exact ih _ (fun q2 hq2 => h q2 (List.mem_cons_of_mem _ hq2))
      (settled_step cfg resolve db p q (h q (by simp)) hs)

/-- After the per-record fold over a batch with pairwise-distinct ids,
every record of the batch is settled. -/
theorem fold_settled (cfg : Config) (resolve : Nat → GameInfo) (batch : List PlayRec)
    (db : DB) (hnd : (batch.map PlayRec.id).Nodup) :
    ∀ p ∈ batch, settled cfg p (batch.foldl (fun d q => (updateOne cfg resolve d q).1) db) := by
  induction batch generalizing db with
  | nil => intro p hp; cases hp
  | cons q qs ih =>
    intro p hp
    simp only [List.map_cons, List.nodup_cons] at hnd
    rcases List.mem_cons.mp hp with rfl | hp2
    · simp only [List.foldl_cons]
      apply fold_settled_preserve
      · intro q2 hq2 hcon
        exact hnd.1 (by rw [← hcon]; exact List.mem_map_of_mem _ hq2)
      · exact settled_after cfg resolve db p
    · simp only [List.foldl_cons]
      exact ih _ hnd.2 p hp2

/-- The per-record fold on an all-settled store is a no-op with an empty
ops log. -/
theorem fold_noop (cfg : Config) (resolve : Nat → GameInfo) (batch : List PlayRec)
    (db : DB) (o : Ops) (h : ∀ p ∈ batch, settled cfg p db) :
    batch.foldl (recStep cfg resolve) (db, o) = (db, o) := by
  induction batch with
  | nil => rfl
  | cons p ps ih =>
    have h1 : recStep cfg resolve (db, o) p = (db, o) := by
      simp [recStep, updateOne_noop cfg resolve db p (h p (by simp)), Ops.append_nil]
    rw [List.foldl_cons, h1]
    exact ih (fun p2 hp2 => h p2 (by simp [hp2]))

/-- The store after `update_plays` is the post-pass applied to the
per-record fold. -/
theorem update_plays_fst (cfg : Config) (resolve : Nat → GameInfo) (batch : List PlayRec)
    (fs : Bool) (db : DB) :
    (update_plays cfg resolve batch fs db).1
      = (deletePass cfg fs batch
          (batch.foldl (fun d q => (updateOne cfg resolve d q).1) db)).1 := by
  simp only [update_plays, foldl_recStep_fst]

theorem list_any_congr {α : Type} (p q : α → Bool) (l : List α) (h : ∀ a ∈ l, p a = q a) :
    l.any p = l.any q := by
  induction l with
  | nil => rfl
  | cons x xs ih => simp [h x (by simp), ih (fun a ha => h a (by simp [ha]))]

/-- Rows whose id differs from every batch record pass through the
per-record fold untouched. -/
theorem fold_mem_preserve (cfg : Config) (resolve : Nat → GameInfo) (batch : List PlayRec)
    (db : DB) (r : PlayRow) (h : ∀ p ∈ batch, r.id ≠ p.id) :
    r ∈ (batch.foldl (fun d q => (updateOne cfg resolve d q).1) db).plays ↔ r ∈ db.plays := by
  induction batch generalizing db with
  | nil => exact Iff.rfl
  | cons p ps ih =>
    simp only [List.foldl_cons]
    rw [ih _ (fun q hq => h q (List.mem_cons_of_mem _ hq))]
    exact updateOne_mem_plays cfg resolve db p r (h p (by simp))

theorem deletePass_games (cfg : Config) (fs : Bool) (batch : List PlayRec) (db : DB) :
    (deletePass cfg fs batch db).1.games = db.games := by
  cases batch <;> rfl

theorem deletePass_users (cfg : Config) (fs : Bool) (batch : List PlayRec) (db : DB) :
    (deletePass cfg fs batch db).1.users = db.users := by
  cases batch <;> rfl

theorem deletePass_ops (cfg : Config) (fs : Bool) (batch : List PlayRec) (db : DB) :
    (deletePass cfg fs batch db).2.gameFetched = []
    ∧ (deletePass cfg fs batch db).2.gameInserted = []
    ∧ (deletePass cfg fs batch db).2.playInsertedGameIds = []
    ∧ (deletePass cfg fs batch db).2.playInserted = [] := by
  cases batch <;> exact ⟨rfl, rfl, rfl, rfl⟩

theorem fold_users (cfg : Config) (resolve : Nat → GameInfo) (batch : List PlayRec)
    (db : DB) :
    (batch.foldl (fun d q => (updateOne cfg resolve d q).1) db).users = db.users := by
  induction batch generalizing db with
  | nil => rfl
  | cons p ps ih =>
    simp only [List.foldl_cons]
    rw [ih, updateOne_users]

/-- A reconciliation pass never touches the users table. -/
theorem update_plays_users (cfg : Config) (resolve : Nat → GameInfo) (batch : List PlayRec)
    (fs : Bool) (db : DB) :
    (update_plays cfg resolve batch fs db).1.users = db.users := by
  rw [update_plays_fst, deletePass_users, fold_users]

/-! ### Claims -/

/-- C3: reconciling the same fetched batch (whose play ids are pairwise
distinct, remote play ids being unique) twice in a row against the same
initial stored state yields exactly the same final stored state as
reconciling once, and the second run performs no operations at all: no
inserts, no deletes, no effective updates, no metadata fetches. -/
theorem C3_idempotent (cfg : Config) (resolve : Nat → GameInfo) (batch : List PlayRec)
    (fs : Bool) (db : DB) (hnd : (batch.map PlayRec.id).Nodup) :
    update_plays cfg resolve batch fs (update_plays cfg resolve batch fs db).1
      = ((update_plays cfg resolve batch fs db).1, Ops.nil) := by
  have hfst := update_plays_fst cfg resolve batch fs db
  have hsF : ∀ p ∈ batch, settled cfg p
      (batch.foldl (fun d q => (updateOne cfg resolve d q).1) db) :=
    fold_settled cfg resolve batch db hnd
  have hs1 : ∀ p ∈ batch, settled cfg p (update_plays cfg resolve batch fs db).1 := by
    intro p hp
    rw [hfst]
    exact settled_deletePass cfg fs batch _ p hp (hsF p hp)
  have hclean : ∀ p0 rest, batch = p0 :: rest →
      ∀ r ∈ (update_plays cfg resolve batch fs db).1.plays, r.user_id = p0.user_id →
      strGe r.play_date (if fs then cfg.START_DATE else cfg.incCutoff) = true →
      r.id ∈ batch.map PlayRec.id := by
    intro p0 rest hb r hr hu hw
    subst hb
    rw [hfst] at hr
    exact deletePass_clean cfg fs p0 rest _ r hr hu hw
  set db1 := (update_plays cfg resolve batch fs db).1 with hdb1
  simp only [update_plays]
  rw [fold_noop cfg resolve batch db1 Ops.nil hs1]
  rw [deletePass_noop cfg fs batch db1 hclean]
  rfl

/-- Witness for C3 at a concrete batch (one insert, one upstream delete)
and store. -/
theorem C3_idempotent_witness :
    (([⟨1, 5, "2026-10-10", 3, "LOC"⟩, ⟨2, 5, "2026-10-09", 3, "XX"⟩] :
        List PlayRec).map PlayRec.id).Nodup
    ∧ update_plays cfg0 resolve0
        [⟨1, 5, "2026-10-10", 3, "LOC"⟩, ⟨2, 5, "2026-10-09", 3, "XX"⟩] false
        (update_plays cfg0 resolve0
          [⟨1, 5, "2026-10-10", 3, "LOC"⟩, ⟨2, 5, "2026-10-09", 3, "XX"⟩] false
          ⟨[⟨2, 5, "2026-10-09", 3⟩, ⟨4, 6, "2026-10-01", 3⟩], [], []⟩).1
      = ((update_plays cfg0 resolve0
          [⟨1, 5, "2026-10-10", 3, "LOC"⟩, ⟨2, 5, "2026-10-09", 3, "XX"⟩] false
          ⟨[⟨2, 5, "2026-10-09", 3⟩, ⟨4, 6, "2026-10-01", 3⟩], [], []⟩).1, Ops.nil) :=
  ⟨by decide, C3_idempotent cfg0 resolve0
    [⟨1, 5, "2026-10-10", 3, "LOC"⟩, ⟨2, 5, "2026-10-09", 3, "XX"⟩] false
    ⟨[⟨2, 5, "2026-10-09", 3⟩, ⟨4, 6, "2026-10-01", 3⟩], [], []⟩ (by decide)⟩

/-- C5: a fetched page whose newest (first) record date is
lexicographically older than the full-scan epoch start makes the fetcher
stop immediately, returning exactly the plays accumulated from earlier
pages and contributing zero records from that page. -/
theorem C5_page_cutoff (cfg : Config) (user_id : Nat) (cutoff_date : String)
    (e : PlayElem) (es : List PlayElem) (rest : List PageResp) (acc : List PlayRec)
    (h : strLt e.date cfg.START_DATE = true) :
    fetchPages cfg user_id cutoff_date (.ok (e :: es) :: rest) acc = .ok acc := by
  simp [fetchPages, h]

/-- Witness for C5: epoch start `2020-01-01`, a page whose newest record
is dated `2019-12-31`, and one previously accumulated play. -/
theorem C5_page_cutoff_witness :
    strLt "2019-12-31" cfg0.START_DATE = true
    ∧ fetchPages cfg0 1 cfg0.START_DATE
        [.ok [⟨11, "2019-12-31", some "LOC", some 7⟩]]
        [⟨9, 7, "2020-02-02", 1, "LOC"⟩] = .ok [⟨9, 7, "2020-02-02", 1, "LOC"⟩] :=
  ⟨by decide, C5_page_cutoff cfg0 1 cfg0.START_DATE ⟨11, "2019-12-31", some "LOC", some 7⟩
    [] [] [⟨9, 7, "2020-02-02", 1, "LOC"⟩] (by decide)⟩

/-- Reaching a location-less element inside a page makes the inner loop
raise, whatever the element's item reference is. -/
theorem scanPage_missing (cutoff : String) (user_id : Nat) (post : List PlayElem)
    (e : PlayElem) (he : strLt e.date cutoff = false) (hloc : e.location = none) :
    ∀ pre : List PlayElem,
      (∀ q ∈ pre, strLt q.date cutoff = false ∧ q.location.isSome) →
      ∀ acc, scanPage cutoff user_id (pre ++ e :: post) acc
        = .err (.missingLocation e.id) := by
  intro pre
  induction pre with
  | nil =>
    intro _ acc
    simp [scanPage, he, hloc]
  | cons q qs ih =>
    intro hpre acc
    obtain ⟨hq1, hq2⟩ := hpre q (by simp)
    obtain ⟨lq, hlq⟩ := Option.isSome_iff_exists.mp hq2
    have ih2 := ih (fun x hx => hpre x (List.mem_cons_of_mem _ hx))
    cases hit : q.item with
    | none => simpa [scanPage, hq1, hlq, hit] using ih2 acc
    | some g => simpa [scanPage, hq1, hlq, hit] using ih2 _

/-- C8 counterexample: a fetched page that contains a play element with no
location attribute, but whose newest record predates the epoch start, is
returned from normally (zero records, no exception) — so the claim's "for
every fetched page containing such an element" does not hold. -/
theorem C8_counterexample :
    fetch_plays_for_user cfg0 1 true [.ok [⟨11, "2019-12-31", none, some 7⟩]]
      = .ok [] := rfl

/-- Pages the loop falls through are consumed without returning: the
fetch continues on the remaining pages with the accumulated plays. -/
theorem fetchPages_falls_through (cfg : Config) (user_id : Nat) (cutoff_date : String)
    (front pages2 : List PageResp) (acc acc2 : List PlayRec)
    (h : FallsThrough cfg user_id cutoff_date front acc acc2) :
    fetchPages cfg user_id cutoff_date (front ++ pages2) acc
      = fetchPages cfg user_id cutoff_date pages2 acc2 := by
  induction h with
  | nil acc => rfl
  | cons e es pages acc acc2 acc3 hnewest hscan htail ih =>
    simp only [List.cons_append, fetchPages, hnewest, Bool.false_eq_true, if_false, hscan]
    exact ih

/-- C8 (amended): in either scan mode, whenever a location-less play
element is actually reached — the fetch falls through the earlier pages,
the element's own page has its newest record not older than the epoch
start, and every record before the element on that page is within the
mode's cutoff and carries a location — the fetch raises the
`AttributeError` (modelled as `FetchErr.missingLocation`) instead of
skipping the record or returning the accumulated plays; the element's
item reference is irrelevant because the error precedes the missing-item
skip check. -/
theorem C8_missing_location (cfg : Config) (user_id : Nat) (fs : Bool)
    (front : List PageResp) (pre post : List PlayElem) (e : PlayElem)
    (rest : List PageResp) (acc : List PlayRec)
    (hfront : FallsThrough cfg user_id (if fs then cfg.START_DATE else cfg.incCutoff)
      front [] acc)
    (hnewest : strLt ((pre ++ e :: post).headD e).date cfg.START_DATE = false)
    (hpre : ∀ q ∈ pre, strLt q.date (if fs then cfg.START_DATE else cfg.incCutoff) = false
      ∧ q.location.isSome)
    (he : strLt e.date (if fs then cfg.START_DATE else cfg.incCutoff) = false)
    (hloc : e.location = none) :
    fetch_plays_for_user cfg user_id fs (front ++ (.ok (pre ++ e :: post)) :: rest)
      = .error (.missingLocation e.id) := by
  have hsc := scanPage_missing (if fs then cfg.START_DATE else cfg.incCutoff) user_id
    post e he hloc pre hpre acc
  unfold fetch_plays_for_user
  rw [fetchPages_falls_through cfg user_id _ front _ [] acc hfront]
  cases pre with
  | nil =>
    simp only [List.nil_append, List.headD_cons] at hsc hnewest ⊢
    simp [fetchPages, hnewest, hsc]
  | cons q qs =>
    simp only [List.cons_append, List.headD_cons] at hsc hnewest ⊢
    simp [fetchPages, hnewest, hsc]

/-- Witness for C8 (amended): an incremental scan whose first page is
consumed normally and whose second page has a location-less (and
item-less) second record errors out with that record's id. -/
theorem C8_missing_location_witness :
    FallsThrough cfg0 1 (if false then cfg0.START_DATE else cfg0.incCutoff)
      [.ok [⟨10, "2026-10-11", some "Loc", some 7⟩]] []
      [⟨10, 7, "2026-10-11", 1, "LOC"⟩]
    ∧ strLt "2026-10-10" cfg0.START_DATE = false
    ∧ (∀ q ∈ [(⟨12, "2026-10-10", some "LOC", some 8⟩ : PlayElem)],
        strLt q.date (if false then cfg0.START_DATE else cfg0.incCutoff) = false
        ∧ q.location.isSome)
    ∧ strLt "2026-10-09" (if false then cfg0.START_DATE else cfg0.incCutoff) = false
    ∧ fetch_plays_for_user cfg0 1 false
        [.ok [⟨10, "2026-10-11", some "Loc", some 7⟩],
         .ok [⟨12, "2026-10-10", some "LOC", some 8⟩, ⟨11, "2026-10-09", none, none⟩]]
      = .error (.missingLocation 11) :=
  ⟨FallsThrough.cons ⟨10, "2026-10-11", some "Loc", some 7⟩ [] [] []
      [⟨10, 7, "2026-10-11", 1, "LOC"⟩] [⟨10, 7, "2026-10-11", 1, "LOC"⟩]
      (by decide) rfl (FallsThrough.nil _),
    by decide, by decide, by decide,
    C8_missing_location cfg0 1 false
      [.ok [⟨10, "2026-10-11", some "Loc", some 7⟩]]
      [⟨12, "2026-10-10", some "LOC", some 8⟩] []
      ⟨11, "2026-10-09", none, none⟩ [] [⟨10, 7, "2026-10-11", 1, "LOC"⟩]
      (FallsThrough.cons ⟨10, "2026-10-11", some "Loc", some 7⟩ [] [] []
        [⟨10, 7, "2026-10-11", 1, "LOC"⟩] [⟨10, 7, "2026-10-11", 1, "LOC"⟩]
        (by decide) rfl (FallsThrough.nil _))
      (by decide) (by decide) (by decide) rfl⟩

/-- C4 counterexample: with the target location configured in lowercase
(`"home"`), a record fetched at location `"Home"` satisfies the claim's
uppercased-equality on both sides, yet is not treated as in scope: the
fetcher uppercases only the record side and the reconciler compares it to
the configured string verbatim, so nothing is inserted. -/
theorem C4_counterexample :
    upStr "Home" = upStr "home"
    ∧ fetch_plays_for_user ⟨"home", "2020-01-01", "2026-09-28T00:00:00", "t"⟩ 1 true
        [.ok [⟨11, "2024-05-05", some "Home", some 7⟩]]
      = .ok [⟨11, 7, "2024-05-05", 1, "HOME"⟩]
    ∧ (update_plays ⟨"home", "2020-01-01", "2026-09-28T00:00:00", "t"⟩ resolve0
        [⟨11, 7, "2024-05-05", 1, "HOME"⟩] true ⟨[], [], []⟩).1 = ⟨[], [], []⟩ :=
  ⟨by decide, rfl, by decide⟩

/-- C4 (amended): only the record side of the location comparison is
uppercased: a record fetched with raw location `l` carries `upStr l`, and
the reconciler treats it as in scope exactly when `upStr l` equals the
configured target string verbatim — deciding insertion for an unstored id
and deletion for a stored id. -/
theorem C4_location_normalization (cfg : Config) (resolve : Nat → GameInfo) (db : DB)
    (p : PlayRec) (l : String) (hl : p.location = upStr l) :
    (existsPlay db p.id = false →
      (existsPlay (updateOne cfg resolve db p).1 p.id = true
        ↔ upStr l = cfg.GAME_LOCATION))
    ∧ (existsPlay db p.id = true →
      (existsPlay (updateOne cfg resolve db p).1 p.id = false
        ↔ upStr l ≠ cfg.GAME_LOCATION)) := by
  have hup : ∀ f : PlayRow → PlayRow, (∀ r, (f r).id = r.id) →
      ∀ pls : List PlayRow, (pls.map f).any (fun r => r.id == p.id)
        = pls.any (fun r => r.id == p.id) := by
    intro f hf pls
    rw [List.any_map]
    exact list_any_congr _ _ _ (fun a _ => by simp [Function.comp, hf a])
  have hfid : ∀ r : PlayRow, ((if updHit p r then
      { r with game_id := p.game_id, play_date := p.play_date, user_id := p.user_id }
      else r) : PlayRow).id = r.id := by
    intro r
    by_cases hu : updHit p r = true <;> simp [hu]
  constructor
  · intro hx
    cases hm : (p.location == cfg.GAME_LOCATION) with
    | false =>
      rw [updateOne_update_eq cfg resolve db p (hx.trans hm.symm)]
      have hany : existsPlay
          ({ db with plays := db.plays.map (fun r =>
            if updHit p r then
              { r with game_id := p.game_id, play_date := p.play_date, user_id := p.user_id }
            else r) }) p.id = false := by
        unfold existsPlay
        rw [hup _ hfid]
        exact hx
      rw [hany]
      have : ¬ upStr l = cfg.GAME_LOCATION := by
        rw [← hl]
        simpa using hm
      simp [this]
    | true =>
      have hloc : p.location = cfg.GAME_LOCATION := by simpa using hm
      have hgoal : upStr l = cfg.GAME_LOCATION := hl ▸ hloc
      have hmem : ∀ (games : List GameRow) (users : List UserRow),
          existsPlay ⟨db.plays ++ [⟨p.id, p.game_id, p.play_date, p.user_id⟩], games, users⟩
            p.id = true := by
        intro games users
        apply (existsPlay_eq_true_iff _ _).mpr
        exact ⟨⟨p.id, p.game_id, p.play_date, p.user_id⟩, by simp, rfl⟩
      cases hg : existsGame db p.game_id
      · rw [updateOne_insert_new_eq cfg resolve db p hx hm hg]
        simpa [hgoal] using hmem _ _
      · rw [updateOne_insert_old_eq cfg resolve db p hx hm hg]
        simpa [hgoal] using hmem _ _
  · intro hx
    cases hm : (p.location == cfg.GAME_LOCATION) with
    | false =>
      rw [updateOne_delete_eq cfg resolve db p hx hm]
      have hany : (db.plays.filter (fun r => !(r.id == p.id))).any
          (fun r => r.id == p.id) = false := by
        apply List.any_eq_false.mpr
        intro r hr
        have := (List.mem_filter.mp hr).2
        simpa using this
      have hne : ¬ upStr l = cfg.GAME_LOCATION := by
        rw [← hl]
        simpa using hm
      unfold existsPlay
      simp only [hany, hne, ne_eq, not_false_eq_true, iff_true]
    | true =>
      rw [updateOne_update_eq cfg resolve db p (hx.trans hm.symm)]
      have hany : existsPlay
          ({ db with plays := db.plays.map (fun r =>
            if updHit p r then
              { r with game_id := p.game_id, play_date := p.play_date, user_id := p.user_id }
            else r) }) p.id = true := by
        unfold existsPlay
        rw [hup _ hfid]
        exact hx
      rw [hany]
      have hloc : upStr l = cfg.GAME_LOCATION := by
        rw [← hl]
        simpa using hm
      simp [hloc]

/-- Witness for C4 (amended): a record at raw location `Loc` (uppercased
to `LOC` by the fetcher) against the target `LOC`, unstored id. -/
theorem C4_location_normalization_witness :
    ((⟨11, 7, "2024-05-05", 1, "LOC"⟩ : PlayRec).location = upStr "Loc")
    ∧ (existsPlay ⟨[], [], []⟩ 11 = false →
        (existsPlay (updateOne cfg0 resolve0 ⟨[], [], []⟩
          ⟨11, 7, "2024-05-05", 1, "LOC"⟩).1 11 = true ↔ upStr "Loc" = cfg0.GAME_LOCATION)) :=
  ⟨by decide,
    (C4_location_normalization cfg0 resolve0 ⟨[], [], []⟩
      ⟨11, 7, "2024-05-05", 1, "LOC"⟩ "Loc" (by decide)).1⟩

/-- C10: for a record whose play id is already stored and whose location
equals the target, the update branch changes only the matched play row's
game_id / play_date / user_id: the games and users tables are unchanged,
no metadata resolution call and no Game insert happen, no play is
inserted or deleted, rows with other ids are untouched, and every row
carrying the record's id carries the record's three fields afterwards —
even when the new game id has no Game row, so the stored play may then
reference a game id absent from the games table. -/
theorem C10_update_frame (cfg : Config) (resolve : Nat → GameInfo) (db : DB)
    (p : PlayRec) (hex : existsPlay db p.id = true)
    (hloc : p.location = cfg.GAME_LOCATION) :
    (updateOne cfg resolve db p).1.games = db.games
    ∧ (updateOne cfg resolve db p).1.users = db.users
    ∧ (updateOne cfg resolve db p).2.gameFetched = []
    ∧ (updateOne cfg resolve db p).2.gameInserted = []
    ∧ (updateOne cfg resolve db p).2.playInserted = []
    ∧ (updateOne cfg resolve db p).2.playDeleted = []
    ∧ (updateOne cfg resolve db p).1.plays.length = db.plays.length
    ∧ (∀ r ∈ (updateOne cfg resolve db p).1.plays, r.id ≠ p.id → r ∈ db.plays)
    ∧ (∀ r ∈ (updateOne cfg resolve db p).1.plays, r.id = p.id →
        r.game_id = p.game_id ∧ r.play_date = p.play_date ∧ r.user_id = p.user_id) := by
  have hl : (p.location == cfg.GAME_LOCATION) = true := by simp [hloc]
  have heq := updateOne_update_eq cfg resolve db p (hex.trans hl.symm)
  refine ⟨by rw [heq], by rw [heq], by rw [heq]; rfl, by rw [heq]; rfl, by rw [heq]; rfl,
    by rw [heq]; rfl, by rw [heq]; exact List.length_map _ _, ?_, ?_⟩
  · intro r hr hne
    exact (updateOne_mem_plays cfg resolve db p r hne).mp hr
  · intro r hr hid
    rw [heq] at hr
    rcases List.mem_map.mp hr with ⟨s, hs, hfs⟩
    by_cases hu : updHit p s = true
    · rw [if_pos hu] at hfs
      rw [← hfs]
      exact ⟨rfl, rfl, rfl⟩
    · rw [if_neg hu] at hfs
      subst hfs
      have hsid : s.id = p.id := hid
      have hnd : ¬(s.game_id ≠ p.game_id ∨ s.play_date ≠ p.play_date
          ∨ s.user_id ≠ p.user_id) := by
        intro hcon
        apply hu
        unfold updHit
        simp only [Bool.and_eq_true, beq_iff_eq, Bool.or_eq_true, Bool.not_eq_eq_eq_not,
          Bool.not_true, beq_eq_false_iff_ne]
        exact ⟨hsid, by tauto⟩
      push_neg at hnd
      exact hnd

/-- Witness for C10: stored play 1 is updated to reference game 9, which
has no Game row; afterwards the play row carries game 9 while the games
table still lacks it. -/
theorem C10_update_frame_witness :
    (existsPlay ⟨[⟨1, 5, "2026-10-01", 3⟩], [⟨5, some "Gname", some "img"⟩], []⟩ 1 = true)
    ∧ ((⟨1, 9, "2026-10-02", 3, "LOC"⟩ : PlayRec).location = cfg0.GAME_LOCATION)
    ∧ ((updateOne cfg0 resolve0
          ⟨[⟨1, 5, "2026-10-01", 3⟩], [⟨5, some "Gname", some "img"⟩], []⟩
          ⟨1, 9, "2026-10-02", 3, "LOC"⟩).1.games
        = (⟨[⟨1, 5, "2026-10-01", 3⟩], [⟨5, some "Gname", some "img"⟩], []⟩ : DB).games
      ∧ (updateOne cfg0 resolve0
          ⟨[⟨1, 5, "2026-10-01", 3⟩], [⟨5, some "Gname", some "img"⟩], []⟩
          ⟨1, 9, "2026-10-02", 3, "LOC"⟩).1.users
        = (⟨[⟨1, 5, "2026-10-01", 3⟩], [⟨5, some "Gname", some "img"⟩], []⟩ : DB).users
      ∧ (updateOne cfg0 resolve0
          ⟨[⟨1, 5, "2026-10-01", 3⟩], [⟨5, some "Gname", some "img"⟩], []⟩
          ⟨1, 9, "2026-10-02", 3, "LOC"⟩).2.gameFetched = []
      ∧ (updateOne cfg0 resolve0
          ⟨[⟨1, 5, "2026-10-01", 3⟩], [⟨5, some "Gname", some "img"⟩], []⟩
          ⟨1, 9, "2026-10-02", 3, "LOC"⟩).2.gameInserted = []
      ∧ (updateOne cfg0 resolve0
          ⟨[⟨1, 5, "2026-10-01", 3⟩], [⟨5, some "Gname", some "img"⟩], []⟩
          ⟨1, 9, "2026-10-02", 3, "LOC"⟩).2.playInserted = []
      ∧ (updateOne cfg0 resolve0
          ⟨[⟨1, 5, "2026-10-01", 3⟩], [⟨5, some "Gname", some "img"⟩], []⟩
          ⟨1, 9, "2026-10-02", 3, "LOC"⟩).2.playDeleted = []
      ∧ (updateOne cfg0 resolve0
          ⟨[⟨1, 5, "2026-10-01", 3⟩], [⟨5, some "Gname", some "img"⟩], []⟩
          ⟨1, 9, "2026-10-02", 3, "LOC"⟩).1.plays.length
        = (⟨[⟨1, 5, "2026-10-01", 3⟩], [⟨5, some "Gname", some "img"⟩], []⟩ : DB).plays.length
      ∧ (∀ r ∈ (updateOne cfg0 resolve0
          ⟨[⟨1, 5, "2026-10-01", 3⟩], [⟨5, some "Gname", some "img"⟩], []⟩
          ⟨1, 9, "2026-10-02", 3, "LOC"⟩).1.plays, r.id ≠ 1 →
            r ∈ (⟨[⟨1, 5, "2026-10-01", 3⟩], [⟨5, some "Gname", some "img"⟩], []⟩ : DB).plays)
      ∧ (∀ r ∈ (updateOne cfg0 resolve0
          ⟨[⟨1, 5, "2026-10-01", 3⟩], [⟨5, some "Gname", some "img"⟩], []⟩
          ⟨1, 9, "2026-10-02", 3, "LOC"⟩).1.plays, r.id = 1 →
            r.game_id = 9 ∧ r.play_date = "2026-10-02" ∧ r.user_id = 3))
    ∧ (updateOne cfg0 resolve0
        ⟨[⟨1, 5, "2026-10-01", 3⟩], [⟨5, some "Gname", some "img"⟩], []⟩
        ⟨1, 9, "2026-10-02", 3, "LOC"⟩).1.plays = [⟨1, 9, "2026-10-02", 3⟩]
    ∧ existsGame (updateOne cfg0 resolve0
        ⟨[⟨1, 5, "2026-10-01", 3⟩], [⟨5, some "Gname", some "img"⟩], []⟩
        ⟨1, 9, "2026-10-02", 3, "LOC"⟩).1 9 = false :=
  ⟨by decide, by decide,
    C10_update_frame cfg0 resolve0
      ⟨[⟨1, 5, "2026-10-01", 3⟩], [⟨5, some "Gname", some "img"⟩], []⟩
      ⟨1, 9, "2026-10-02", 3, "LOC"⟩ (by decide) (by decide),
    by decide, by decide⟩

/-- C6: the deletion post-pass never deletes a stored play dated before
the scan mode's cutoff: in incremental mode, a stored play whose date is
lexicographically below the incremental cutoff and whose id does not
occur in the batch survives the whole pass unchanged (`plays.id` is the
primary key, so the row is the unique holder of its id). -/
theorem C6_window_bounded (cfg : Config) (resolve : Nat → GameInfo) (batch : List PlayRec)
    (db : DB) (r : PlayRow) (hr : r ∈ db.plays)
    (huniq : ∀ s ∈ db.plays, s.id = r.id → s = r)
    (hold : strLt r.play_date cfg.incCutoff = true)
    (hid : r.id ∉ batch.map PlayRec.id) :
    r ∈ (update_plays cfg resolve batch false db).1.plays := by
  have hne : ∀ p ∈ batch, r.id ≠ p.id := by
    intro p hp hcon
    exact hid (by rw [hcon]; exact List.mem_map_of_mem _ hp)
  have hrF : r ∈ (batch.foldl (fun d q => (updateOne cfg resolve d q).1) db).plays :=
    (fold_mem_preserve cfg resolve batch db r hne).mpr hr
  rw [update_plays_fst]
  cases batch with
  | nil => exact hrF
  | cons p0 rest =>
    simp only [deletePass]
    rw [mem_foldl_del]
    refine ⟨hrF, fun hcon => ?_⟩
    have h2 := List.mem_filter.mp hcon
    rcases List.mem_map.mp h2.1 with ⟨s, hsf, hsid⟩
    rcases List.mem_filter.mp hsf with ⟨hsF, hscond⟩
    have hs_db : s ∈ db.plays := by
      refine (fold_mem_preserve cfg resolve (p0 :: rest) db s ?_).mp hsF
      intro p hp
      rw [hsid]
      exact hne p hp
    have hseq : s = r := huniq s hs_db hsid
    subst hseq
    simp only [Bool.and_eq_true, beq_iff_eq] at hscond
    have hge := hscond.2
    rw [if_neg (by simp)] at hge
    unfold strGe at hge
    rw [hold] at hge
    cases hge

/-- Witness for C6: a 14-day window as of 2026-10-12 and a play dated
2026-09-12 (30 days earlier), absent from the batch, is kept. -/
theorem C6_window_bounded_witness :
    ((⟨1, 7, "2026-09-12", 3⟩ : PlayRow)
        ∈ (⟨[⟨1, 7, "2026-09-12", 3⟩], [⟨7, some "Gname", some "img"⟩], []⟩ : DB).plays)
    ∧ strLt "2026-09-12" cfg0.incCutoff = true
    ∧ ((1 : Nat) ∉ ([⟨2, 7, "2026-10-11", 3, "LOC"⟩] : List PlayRec).map PlayRec.id)
    ∧ (⟨1, 7, "2026-09-12", 3⟩ : PlayRow) ∈ (update_plays cfg0 resolve0
        [⟨2, 7, "2026-10-11", 3, "LOC"⟩] false
        ⟨[⟨1, 7, "2026-09-12", 3⟩], [⟨7, some "Gname", some "img"⟩], []⟩).1.plays :=
  ⟨by decide, by decide, by decide,
    C6_window_bounded cfg0 resolve0 [⟨2, 7, "2026-10-11", 3, "LOC"⟩]
      ⟨[⟨1, 7, "2026-09-12", 3⟩], [⟨7, some "Gname", some "img"⟩], []⟩
      ⟨1, 7, "2026-09-12", 3⟩ (by decide) (by decide) (by decide) (by decide)⟩

/-- C1 counterexample: an empty batch performs no deletion at all — a
stored play inside the incremental window (`2026-10-10` with cutoff
`2026-09-28T00:00:00`) that is absent from the (empty) set of observed
ids is NOT deleted, because the deletion post-pass is guarded by
`if plays:`. -/
theorem C1_counterexample :
    strGe "2026-10-10" cfg0.incCutoff = true
    ∧ update_plays cfg0 resolve0 [] false ⟨[⟨1, 7, "2026-10-10", 3⟩], [], []⟩
      = (⟨[⟨1, 7, "2026-10-10", 3⟩], [], []⟩, Ops.nil) :=
  ⟨by decide, by decide⟩

/-- C1 (amended): for a NON-EMPTY batch, after the per-record rules every
locally stored play of the batch's user whose play date falls within the
scan mode's cutoff window and whose id is not among the observed play ids
is deleted from storage; an empty batch skips deletion detection. -/
theorem C1_deletion_detection (cfg : Config) (resolve : Nat → GameInfo)
    (p0 : PlayRec) (rest : List PlayRec) (fs : Bool) (db : DB) (r : PlayRow)
    (hr : r ∈ db.plays) (huser : r.user_id = p0.user_id)
    (hwin : strGe r.play_date (if fs then cfg.START_DATE else cfg.incCutoff) = true)
    (hid : r.id ∉ (p0 :: rest).map PlayRec.id) :
    ∀ row ∈ (update_plays cfg resolve (p0 :: rest) fs db).1.plays, row.id ≠ r.id := by
  have hne : ∀ p ∈ p0 :: rest, r.id ≠ p.id := by
    intro p hp hcon
    exact hid (by rw [hcon]; exact List.mem_map_of_mem _ hp)
  have hrF : r ∈ ((p0 :: rest).foldl (fun d q => (updateOne cfg resolve d q).1) db).plays :=
    (fold_mem_preserve cfg resolve (p0 :: rest) db r hne).mpr hr
  intro row hrow hcon
  rw [update_plays_fst] at hrow
  simp only [deletePass] at hrow
  rcases (mem_foldl_del _ _ row).mp hrow with ⟨_, hnotdel⟩
  apply hnotdel
  rw [hcon]
  apply List.mem_filter.mpr
  refine ⟨?_, ?_⟩
  · exact List.mem_map.mpr ⟨r, List.mem_filter.mpr ⟨hrF, by simp [huser, hwin]⟩, rfl⟩
  · simp only [Bool.not_eq_eq_eq_not, Bool.not_true]
    simpa using hid

/-- Witness for C1 (amended): incremental mode, a stored play dated
inside the window and unobserved in the (non-empty) batch is gone. -/
theorem C1_deletion_detection_witness :
    ((⟨1, 7, "2026-10-10", 3⟩ : PlayRow)
        ∈ (⟨[⟨1, 7, "2026-10-10", 3⟩], [⟨7, some "Gname", some "img"⟩], []⟩ : DB).plays)
    ∧ ((⟨1, 7, "2026-10-10", 3⟩ : PlayRow).user_id
        = (⟨2, 7, "2026-10-11", 3, "LOC"⟩ : PlayRec).user_id)
    ∧ strGe "2026-10-10" (if false then cfg0.START_DATE else cfg0.incCutoff) = true
    ∧ ((1 : Nat) ∉ ([⟨2, 7, "2026-10-11", 3, "LOC"⟩] : List PlayRec).map PlayRec.id)
    ∧ ∀ row ∈ (update_plays cfg0 resolve0 [⟨2, 7, "2026-10-11", 3, "LOC"⟩] false
        ⟨[⟨1, 7, "2026-10-10", 3⟩], [⟨7, some "Gname", some "img"⟩], []⟩).1.plays,
        row.id ≠ 1 :=
  ⟨by decide, by decide, by decide, by decide,
    C1_deletion_detection cfg0 resolve0 ⟨2, 7, "2026-10-11", 3, "LOC"⟩ [] false
      ⟨[⟨1, 7, "2026-10-10", 3⟩], [⟨7, some "Gname", some "img"⟩], []⟩
      ⟨1, 7, "2026-10-10", 3⟩ (by decide) (by decide) (by decide) (by decide)⟩

/-- C2 counterexample: in the scheduled sweep, a user with an unset
watermark is given a Full-mode scan, yet the stored play 10 dated before
the epoch start (`2019-06-01` < `2020-01-01`) and absent upstream
survives the pass — `cron_update` has no pre-delete and relies on the
windowed diff, so the claim fails for scheduler-selected Full scans. -/
theorem C2_counterexample :
    scanModeFull ⟨1, "alice", true, none⟩ = true
    ∧ cron_update cfg0 resolve0
        (fun _ => [.ok [⟨11, "2024-05-05", some "Loc", some 7⟩]])
        ⟨[⟨10, 5, "2019-06-01", 1⟩], [⟨7, some "Gname", some "img"⟩],
          [⟨1, "alice", true, none⟩]⟩
      = .ok ⟨[⟨10, 5, "2019-06-01", 1⟩, ⟨11, 7, "2024-05-05", 1⟩],
             [⟨7, some "Gname", some "img"⟩],
             [⟨1, "alice", true, some cfg0.todayStamp⟩]⟩ :=
  ⟨rfl, rfl⟩

/-- A per-record step cannot give a row of user `uid` an id outside `S`
when the record's own id is in `S`. -/
theorem updateOne_user_inv (cfg : Config) (resolve : Nat → GameInfo) (db : DB)
    (p : PlayRec) (uid : Nat) (S : List Nat) (hp : p.id ∈ S)
    (h0 : ∀ row ∈ db.plays, row.user_id = uid → row.id ∈ S) :
    ∀ row ∈ (updateOne cfg resolve db p).1.plays, row.user_id = uid → row.id ∈ S := by
  intro row hrow huid
  cases hx : existsPlay db p.id <;> cases hl : (p.location == cfg.GAME_LOCATION)
  · rw [updateOne_update_eq cfg resolve db p (hx.trans hl.symm)] at hrow
    rcases List.mem_map.mp hrow with ⟨s, hs, hfs⟩
    by_cases hu : updHit p s = true
    · rw [if_pos hu] at hfs
      have : row.id = s.id := by rw [← hfs]
      rw [this, updHit_id p s hu]
      exact hp
    · rw [if_neg hu] at hfs
      exact h0 row (hfs ▸ hs) huid
  · cases hg : existsGame db p.game_id
    · rw [updateOne_insert_new_eq cfg resolve db p hx hl hg] at hrow
      rcases List.mem_append.mp hrow with hrow | hrow
      · exact h0 row hrow huid
      · rcases List.mem_singleton.mp hrow with rfl
        exact hp
    · rw [updateOne_insert_old_eq cfg resolve db p hx hl hg] at hrow
      rcases List.mem_append.mp hrow with hrow | hrow
      · exact h0 row hrow huid
      · rcases List.mem_singleton.mp hrow with rfl
        exact hp
  · rw [updateOne_delete_eq cfg resolve db p hx hl] at hrow
    exact h0 row (List.mem_filter.mp hrow).1 huid
  · rw [updateOne_update_eq cfg resolve db p (hx.trans hl.symm)] at hrow
    rcases List.mem_map.mp hrow with ⟨s, hs, hfs⟩
    by_cases hu : updHit p s = true
    · rw [if_pos hu] at hfs
      have : row.id = s.id := by rw [← hfs]
      rw [this, updHit_id p s hu]
      exact hp
    · rw [if_neg hu] at hfs
      exact h0 row (hfs ▸ hs) huid

/-- A whole reconciliation pass cannot give a row of user `uid` an id
outside the batch's observed ids, when no such row existed initially. -/
theorem update_plays_user_inv (cfg : Config) (resolve : Nat → GameInfo)
    (batch : List PlayRec) (fs : Bool) (db : DB) (uid : Nat)
    (h0 : ∀ row ∈ db.plays, row.user_id = uid → row.id ∈ batch.map PlayRec.id) :
    ∀ row ∈ (update_plays cfg resolve batch fs db).1.plays, row.user_id = uid →
      row.id ∈ batch.map PlayRec.id := by
  have hfold : ∀ (sub : List PlayRec) (d : DB),
      (∀ q ∈ sub, q.id ∈ batch.map PlayRec.id) →
      (∀ row ∈ d.plays, row.user_id = uid → row.id ∈ batch.map PlayRec.id) →
      ∀ row ∈ (sub.foldl (fun d2 q => (updateOne cfg resolve d2 q).1) d).plays,
        row.user_id = uid → row.id ∈ batch.map PlayRec.id := by
    intro sub
    induction sub with
    | nil => intro d _ hd; exact hd
    | cons q qs ih =>
      intro d hq hd
      simp only [List.foldl_cons]
      exact ih _ (fun x hx => hq x (List.mem_cons_of_mem _ hx))
        (updateOne_user_inv cfg resolve d q uid _ (hq q (by simp)) hd)
  intro row hrow huid
  rw [update_plays_fst] at hrow
  have hF := hfold batch db (fun q hq => List.mem_map_of_mem _ hq) h0
  exact hF row (deletePass_subset cfg fs batch _ row hrow) huid

/-- C2 (amended): only the ADMIN-triggered full scan discards the user's
entire stored play history before reconciliation reinserts the fetched
batch: afterwards every stored play of that user carries an id observed
in the batch, whatever its date. (A scheduler-selected Full-mode scan
performs no pre-delete and relies on the windowed diff; see the
counterexample.) -/
theorem C2_admin_full_replace (cfg : Config) (resolve : Nat → GameInfo)
    (remote : String → List PageResp) (db : DB) (username : String) (u : UserRow)
    (plays : List PlayRec)
    (hu : db.users.find? (fun v => v.username == username && v.is_active) = some u)
    (hf : fetch_plays_for_user cfg u.id true (remote username) = .ok plays) :
    ∃ db2, admin_full_scan cfg resolve remote db username = .ok db2
      ∧ ∀ row ∈ db2.plays, row.user_id = u.id → row.id ∈ plays.map PlayRec.id := by
  unfold admin_full_scan
  rw [hu]
  simp only [hf]
  refine ⟨_, rfl, ?_⟩
  intro row hrow huid
  have h0 : ∀ row2 ∈ (db.plays.filter (fun r => !(r.user_id == u.id))),
      row2.user_id = u.id → row2.id ∈ plays.map PlayRec.id := by
    intro row2 hrow2 huid2
    have := (List.mem_filter.mp hrow2).2
    rw [huid2] at this
    simp at this
  exact update_plays_user_inv cfg resolve plays true _ u.id h0 row hrow huid

/-- Witness for C2 (amended): an admin full scan over a store holding an
old play 10 for alice; afterwards alice's only stored play is the fetched
play 11. -/
theorem C2_admin_full_replace_witness :
    ((⟨[⟨10, 5, "2019-06-01", 1⟩], [⟨7, some "Gname", some "img"⟩],
        [⟨1, "alice", true, none⟩]⟩ : DB).users.find?
        (fun v => v.username == "alice" && v.is_active)
      = some ⟨1, "alice", true, none⟩)
    ∧ (fetch_plays_for_user cfg0 1 true
        [.ok [⟨11, "2024-05-05", some "Loc", some 7⟩]]
      = .ok [⟨11, 7, "2024-05-05", 1, "LOC"⟩])
    ∧ ∃ db2, admin_full_scan cfg0 resolve0
        (fun _ => [.ok [⟨11, "2024-05-05", some "Loc", some 7⟩]])
        ⟨[⟨10, 5, "2019-06-01", 1⟩], [⟨7, some "Gname", some "img"⟩],
          [⟨1, "alice", true, none⟩]⟩ "alice"
        = .ok db2
      ∧ ∀ row ∈ db2.plays, row.user_id = 1 →
          row.id ∈ ([⟨11, 7, "2024-05-05", 1, "LOC"⟩] : List PlayRec).map PlayRec.id :=
  ⟨by decide, rfl,
    C2_admin_full_replace cfg0 resolve0
      (fun _ => [.ok [⟨11, "2024-05-05", some "Loc", some 7⟩]])
      ⟨[⟨10, 5, "2019-06-01", 1⟩], [⟨7, some "Gname", some "img"⟩],
        [⟨1, "alice", true, none⟩]⟩ "alice" ⟨1, "alice", true, none⟩
      [⟨11, 7, "2024-05-05", 1, "LOC"⟩] (by decide) rfl⟩

/-- One per-record step preserves the game-`g` bookkeeping invariant. -/
theorem recStep_gInv (cfg : Config) (resolve : Nat → GameInfo) (g : Nat)
    (db : DB) (o : Ops) (p : PlayRec) (h : gInv g db o) :
    gInv g (recStep cfg resolve (db, o) p).1 (recStep cfg resolve (db, o) p).2 := by
  unfold gInv at h
  obtain ⟨h1, h2, h3, h4⟩ := h
  show gInv g (updateOne cfg resolve db p).1 (Ops.append o (updateOne cfg resolve db p).2)
  unfold gInv
  cases hx : existsPlay db p.id <;> cases hl : (p.location == cfg.GAME_LOCATION)
  · rw [updateOne_update_eq cfg resolve db p (hx.trans hl.symm)]
    refine ⟨by simpa [Ops.append, Ops.nil] using h1, by simpa [Ops.append, Ops.nil] using h2,
      by simpa [Ops.append, Ops.nil] using h3, ?_⟩
    intro hm
    simp only [Ops.append, Ops.nil, List.append_nil] at hm ⊢
    exact h4 hm
  · cases hg : existsGame db p.game_id
    · rw [updateOne_insert_new_eq cfg resolve db p hx hl hg]
      by_cases hpg : p.game_id = g
      · subst hpg
        have hzero : db.games.filter (fun r => r.id == p.game_id) = [] := by
          apply List.filter_eq_nil_iff.mpr
          intro r hr
          simpa using (existsGame_eq_false_iff db p.game_id).mp hg r hr
        have hc0 : o.gameFetched.count p.game_id = 0 := by
          rw [← h1, hzero]
          rfl
        have hc0b : o.gameInserted.count p.game_id = 0 := by rw [h2, hc0]
        refine ⟨?_, ?_, ?_, ?_⟩
        · simp [Ops.append, List.filter_append, hzero, List.count_append, hc0]
        · simp [Ops.append, List.count_append, hc0, hc0b]
        · simp [Ops.append, List.count_append, hc0]
        · intro _
          simp [Ops.append, List.count_append, hc0]
      · have hcnt : List.count g [p.game_id] = 0 :=
          List.count_eq_zero.mpr (by simp [Ne.symm hpg])
        have hrow : (((⟨p.game_id, (resolve p.game_id).name,
            (resolve p.game_id).image_url⟩ : GameRow)) :: []).filter
            (fun r => r.id == g) = [] := by
          simp [hpg]
        simp only [Ops.append]
        refine ⟨?_, ?_, ?_, ?_⟩
        · rw [List.filter_append, hrow, List.append_nil, List.count_append, hcnt,
            Nat.add_zero]
          exact h1
        · rw [List.count_append, List.count_append, hcnt]
          simp only [Nat.add_zero]
          exact h2
        · rw [List.count_append, hcnt, Nat.add_zero]
          exact h3
        · intro hm
          simp only [List.mem_append, List.mem_singleton] at hm
          rw [List.count_append, hcnt, Nat.add_zero]
          rcases hm with hm | hm
          · exact h4 hm
          · exact absurd hm.symm hpg
    · rw [updateOne_insert_old_eq cfg resolve db p hx hl hg]
      refine ⟨by simpa [Ops.append] using h1, by simpa [Ops.append] using h2,
        by simpa [Ops.append] using h3, ?_⟩
      intro hm
      simp only [Ops.append, List.mem_append, List.mem_singleton] at hm
      simp only [Ops.append, List.append_nil]
      rcases hm with hm | hm
      · exact h4 hm
      · subst hm
        rcases (existsGame_eq_true_iff db p.game_id).mp hg with ⟨r, hr, hrid⟩
        have hmem : r ∈ db.games.filter (fun s => s.id == p.game_id) :=
          List.mem_filter.mpr ⟨hr, by simp [hrid]⟩
        have hlen : 0 < (db.games.filter (fun s => s.id == p.game_id)).length :=
          List.length_pos_of_mem hmem
        rw [h1] at hlen
        exact hlen
  · rw [updateOne_delete_eq cfg resolve db p hx hl]
    refine ⟨by simpa [Ops.append, Ops.nil] using h1, by simpa [Ops.append, Ops.nil] using h2,
      by simpa [Ops.append, Ops.nil] using h3, ?_⟩
    intro hm
    simp only [Ops.append, Ops.nil, List.append_nil] at hm ⊢
    exact h4 hm
  · rw [updateOne_update_eq cfg resolve db p (hx.trans hl.symm)]
    refine ⟨by simpa [Ops.append, Ops.nil] using h1, by simpa [Ops.append, Ops.nil] using h2,
      by simpa [Ops.append, Ops.nil] using h3, ?_⟩
    intro hm
    simp only [Ops.append, Ops.nil, List.append_nil] at hm ⊢
    exact h4 hm

/-- The per-record fold preserves the game-`g` bookkeeping invariant. -/
theorem fold_gInv (cfg : Config) (resolve : Nat → GameInfo) (g : Nat)
    (batch : List PlayRec) :
    ∀ acc : DB × Ops, gInv g acc.1 acc.2 →
      gInv g (batch.foldl (recStep cfg resolve) acc).1
        (batch.foldl (recStep cfg resolve) acc).2 := by
  induction batch with
  | nil => intro acc h; exact h
  | cons p ps ih =>
    intro acc h
    simp only [List.foldl_cons]
    obtain ⟨d, o⟩ := acc
    exact ih _ (recStep_gInv cfg resolve g d o p h)

/-- C7: within one reconciliation pass, a game id with no local Game row
that is referenced by at least one inserted in-scope play triggers
exactly one metadata resolution call and exactly one Game row insert,
even when several plays of the batch reference it; afterwards exactly one
Game row for that id is stored. -/
theorem C7_single_backfill (cfg : Config) (resolve : Nat → GameInfo) (batch : List PlayRec)
    (fs : Bool) (db : DB) (g : Nat) (hg : existsGame db g = false)
    (href : g ∈ (update_plays cfg resolve batch fs db).2.playInsertedGameIds) :
    (update_plays cfg resolve batch fs db).2.gameFetched.count g = 1
    ∧ (update_plays cfg resolve batch fs db).2.gameInserted.count g = 1
    ∧ ((update_plays cfg resolve batch fs db).1.games.filter
        (fun r => r.id == g)).length = 1 := by
  have h0 : gInv g db Ops.nil := by
    unfold gInv
    have hzero : db.games.filter (fun r => r.id == g) = [] := by
      apply List.filter_eq_nil_iff.mpr
      intro r hr
      simpa using (existsGame_eq_false_iff db g).mp hg r hr
    simp [hzero, Ops.nil]
  have hF := fold_gInv cfg resolve g batch (db, Ops.nil) h0
  unfold gInv at hF
  obtain ⟨hI1, hI2, hI3, hI4⟩ := hF
  obtain ⟨hd1, hd2, hd3, hd4⟩ := deletePass_ops cfg fs batch
    (batch.foldl (recStep cfg resolve) (db, Ops.nil)).1
  simp only [update_plays, Ops.append] at href ⊢
  rw [hd3, List.append_nil] at href
  have hpos : 0 < (batch.foldl (recStep cfg resolve) (db, Ops.nil)).2.gameFetched.count g :=
    hI4 href
  have hcount : (batch.foldl (recStep cfg resolve) (db, Ops.nil)).2.gameFetched.count g = 1 :=
    le_antisymm hI3 hpos
  refine ⟨?_, ?_, ?_⟩
  · rw [hd1, List.append_nil, hcount]
  · rw [hd2, List.append_nil, hI2, hcount]
  · rw [deletePass_games, hI1, hcount]

/-- Witness for C7: two in-scope plays of the same unknown game 5 cause a
single metadata fetch and a single Game insert. -/
theorem C7_single_backfill_witness :
    (existsGame ⟨[], [], []⟩ 5 = false)
    ∧ ((5 : Nat) ∈ (update_plays cfg0 resolve0
        [⟨1, 5, "2026-10-10", 3, "LOC"⟩, ⟨2, 5, "2026-10-09", 3, "LOC"⟩] false
        ⟨[], [], []⟩).2.playInsertedGameIds)
    ∧ (update_plays cfg0 resolve0
        [⟨1, 5, "2026-10-10", 3, "LOC"⟩, ⟨2, 5, "2026-10-09", 3, "LOC"⟩] false
        ⟨[], [], []⟩).2.gameFetched.count 5 = 1
    ∧ (update_plays cfg0 resolve0
        [⟨1, 5, "2026-10-10", 3, "LOC"⟩, ⟨2, 5, "2026-10-09", 3, "LOC"⟩] false
        ⟨[], [], []⟩).2.gameInserted.count 5 = 1
    ∧ ((update_plays cfg0 resolve0
        [⟨1, 5, "2026-10-10", 3, "LOC"⟩, ⟨2, 5, "2026-10-09", 3, "LOC"⟩] false
        ⟨[], [], []⟩).1.games.filter (fun r => r.id == 5)).length = 1 := by
  have hmain := C7_single_backfill cfg0 resolve0
    [⟨1, 5, "2026-10-10", 3, "LOC"⟩, ⟨2, 5, "2026-10-09", 3, "LOC"⟩] false
    ⟨[], [], []⟩ 5 (by decide) (by decide)
  exact ⟨by decide, by decide, hmain.1, hmain.2.1, hmain.2.2⟩

/-- `cronUser` on a user with an unset watermark stamps every users-row
carrying that user's id with today's timestamp. -/
theorem cronUser_stamps (cfg : Config) (resolve : Nat → GameInfo)
    (remote : String → List PageResp) (db db2 : DB) (u : UserRow)
    (h : cronUser cfg resolve remote db u = .ok db2) (hw : u.last_full_scan = none) :
    ∀ row ∈ db2.users, row.id = u.id → row.last_full_scan = some cfg.todayStamp := by
  simp only [cronUser] at h
  cases hf : fetch_plays_for_user cfg u.id (scanModeFull u) (remote u.username) with
  | error e =>
    rw [hf] at h
    cases h
  | ok plays =>
    rw [hf] at h
    simp only [hw, Option.isNone_none, if_true, Except.ok.injEq] at h
    subst h
    intro row hrow hid
    rcases List.mem_map.mp hrow with ⟨v, hv, hfv⟩
    by_cases hvid : (v.id == u.id) = true
    · rw [if_pos hvid] at hfv
      rw [← hfv]
    · rw [if_neg hvid] at hfv
      subst hfv
      exact absurd (by simp [hid]) hvid

/-- Any `cronUser` step keeps every users-row of a given id stamped with
today's timestamp, once it is. -/
theorem cronUser_keeps_stamp (cfg : Config) (resolve : Nat → GameInfo)
    (remote : String → List PageResp) (db db2 : DB) (u2 : UserRow) (uid : Nat)
    (h : cronUser cfg resolve remote db u2 = .ok db2)
    (hinv : ∀ row ∈ db.users, row.id = uid → row.last_full_scan = some cfg.todayStamp) :
    ∀ row ∈ db2.users, row.id = uid → row.last_full_scan = some cfg.todayStamp := by
  simp only [cronUser] at h
  cases hf : fetch_plays_for_user cfg u2.id (scanModeFull u2) (remote u2.username) with
  | error e =>
    rw [hf] at h
    cases h
  | ok plays =>
    rw [hf] at h
    cases hw2 : u2.last_full_scan with
    | none =>
      simp only [hw2, Option.isNone_none, if_true, Except.ok.injEq] at h
      subst h
      intro row hrow hid
      rcases List.mem_map.mp hrow with ⟨v, hv, hfv⟩
      rw [update_plays_users] at hv
      by_cases hvid : (v.id == u2.id) = true
      · rw [if_pos hvid] at hfv
        rw [← hfv]
      · rw [if_neg hvid] at hfv
        subst hfv
        exact hinv v hv hid
    | some t =>
      simp only [hw2, Option.isNone_some, Bool.false_eq_true, if_false, Except.ok.injEq] at h
      subst h
      intro row hrow hid
      rw [update_plays_users] at hrow
      exact hinv row hrow hid

/-- The sweep loop keeps every users-row of a given id stamped with
today's timestamp, once it is. -/
theorem cronLoop_keeps_stamp (cfg : Config) (resolve : Nat → GameInfo)
    (remote : String → List PageResp) (us : List UserRow) :
    ∀ db db2 : DB, ∀ uid : Nat, cronLoop cfg resolve remote us db = .ok db2 →
    (∀ row ∈ db.users, row.id = uid → row.last_full_scan = some cfg.todayStamp) →
    ∀ row ∈ db2.users, row.id = uid → row.last_full_scan = some cfg.todayStamp := by
  induction us with
  | nil =>
    intro db db2 uid h hinv
    simp only [cronLoop, Except.ok.injEq] at h
    subst h
    exact hinv
  | cons v vs ih =>
    intro db db2 uid h hinv
    unfold cronLoop at h
    cases hc : cronUser cfg resolve remote db v with
    | error e =>
      rw [hc] at h
      cases h
    | ok db1 =>
      rw [hc] at h
      exact ih db1 db2 uid h
        (cronUser_keeps_stamp cfg resolve remote db db1 v uid hc hinv)

/-- C9: in the scheduled sweep, every active user whose last-full-scan
watermark is unset gets the watermark stamped with today's timestamp when
the sweep completes — unconditionally on how the remote fetch went (in
particular also when it aborted early on a non-success response with only
partial results) — so every later scheduling decision for that user's row
yields Incremental. -/
theorem C9_watermark_unconditional (cfg : Config) (resolve : Nat → GameInfo)
    (remote : String → List PageResp) (db db2 : DB)
    (h : cron_update cfg resolve remote db = .ok db2)
    (u : UserRow) (hu : u ∈ db.users) (hact : u.is_active = true)
    (hw : u.last_full_scan = none) :
    ∀ row ∈ db2.users, row.id = u.id →
      row.last_full_scan = some cfg.todayStamp ∧ scanModeFull row = false := by
  have hu2 : u ∈ db.users.filter (fun v => v.is_active) :=
    List.mem_filter.mpr ⟨hu, by simp [hact]⟩
  have main : ∀ (us : List UserRow) (d d2 : DB),
      cronLoop cfg resolve remote us d = .ok d2 → u ∈ us →
      ∀ row ∈ d2.users, row.id = u.id → row.last_full_scan = some cfg.todayStamp := by
    intro us
    induction us with
    | nil =>
      intro d d2 h2 hmem
      cases hmem
    | cons v vs ih =>
      intro d d2 h2 hmem
      unfold cronLoop at h2
      cases hc : cronUser cfg resolve remote d v with
      | error e =>
        rw [hc] at h2
        cases h2
      | ok d1 =>
        rw [hc] at h2
        rcases List.mem_cons.mp hmem with rfl | hmem2
        · exact cronLoop_keeps_stamp cfg resolve remote vs d1 d2 u.id h2
            (cronUser_stamps cfg resolve remote d d1 u hc hw)
        · exact ih d1 d2 h2 hmem2
  intro row hrow hid
  have hst := main _ db db2 h hu2 row hrow hid
  exact ⟨hst, by simp [scanModeFull, hst]⟩

/-- Witness for C9: the remote delivers one good page and then a
non-success status, so the fetch aborts early with partial results; the
sweep still stamps alice's watermark and the next decision for her row is
Incremental. -/
theorem C9_watermark_unconditional_witness :
    (fetch_plays_for_user cfg0 1 true
        [.ok [⟨11, "2024-05-05", some "Loc", some 7⟩], .bad]
      = .ok [⟨11, 7, "2024-05-05", 1, "LOC"⟩])
    ∧ (cron_update cfg0 resolve0
        (fun _ => [.ok [⟨11, "2024-05-05", some "Loc", some 7⟩], .bad])
        ⟨[], [], [⟨1, "alice", true, none⟩]⟩
      = .ok ⟨[⟨11, 7, "2024-05-05", 1⟩], [⟨7, some "Gname", some "img"⟩],
             [⟨1, "alice", true, some cfg0.todayStamp⟩]⟩)
    ∧ ∀ row ∈ (⟨[⟨11, 7, "2024-05-05", 1⟩], [⟨7, some "Gname", some "img"⟩],
          [⟨1, "alice", true, some cfg0.todayStamp⟩]⟩ : DB).users, row.id = 1 →
        row.last_full_scan = some cfg0.todayStamp ∧ scanModeFull row = false :=
  ⟨rfl, rfl,
    C9_watermark_unconditional cfg0 resolve0
      (fun _ => [.ok [⟨11, "2024-05-05", some "Loc", some 7⟩], .bad])
      ⟨[], [], [⟨1, "alice", true, none⟩]⟩
      ⟨[⟨11, 7, "2024-05-05", 1⟩], [⟨7, some "Gname", some "img"⟩],
        [⟨1, "alice", true, some cfg0.todayStamp⟩]⟩
      rfl ⟨1, "alice", true, none⟩ (by decide) (by decide) rfl⟩

end HBGS
